import Mathlib

/-!
Verification of the tree-traversal and tree-rewriting engine in
`datafusion/common/src/tree_node.rs`.

Shallow embedding conventions:
* Rust `Result<T>` becomes `Except ε T` with an opaque error type `ε`
  (errors are only ever produced by client callbacks and passed through).
* Rust `FnMut` closures (stateful callbacks) become state-threading
  functions `σ → input → Except ε (σ × output)`; the state `σ` lets us
  observe the exact sequence of callback invocations.
* The rewriting traversals (`rewrite`, `transform_down`, ...) recurse into
  the tree *returned by* a callback, so they are not structurally
  recursive in the input; every traversal therefore takes a fuel
  parameter and computes in `Option (Except ε _)`, where `none` means the
  fuel ran out.  For any run appearing in a theorem the fuel is ample and
  `none` never arises.  Consequently every combinator that the traversals
  use (`try_transform_node_with`, `map_until_stop_and_collect`, the
  `map_children` implementations) is stated once at this
  `Option (Except ε _)` level; `obind`/`oret`/`olift` are its
  bind/return/lift.
* The generic `TreeNode` trait is instantiated at the representative tree
  type `TestTreeNode` (children list + data) used throughout the
  module's own test suite; `DynTreeNode` (`Arc`) and `ConcreteTreeNode`
  node contracts are modelled as explicit records of their two methods.
-/

set_option autoImplicit false

universe u v w

/-- Sequencing for fueled fallible computations: `none` (out of fuel) and
`Except.error` both short-circuit, mirroring Rust's `?` operator plus the
fuel layer. -/
def obind {ε : Type u} {A : Type v} {B : Type w}
    (x : Option (Except ε A)) (f : A → Option (Except ε B)) :
    Option (Except ε B) :=
  match x with
  | none => none
  | some (Except.error e) => some (Except.error e)
  | some (Except.ok a) => f a

/-- Return for fueled fallible computations. -/
def oret {ε : Type u} {A : Type v} (a : A) : Option (Except ε A) :=
  some (Except.ok a)

/-- Lift an ordinary fallible computation (a client callback result) into
the fueled layer. -/
def olift {ε : Type u} {A : Type v} (x : Except ε A) : Option (Except ε A) :=
  some x

/-- `TreeNodeRecursion` from the source: the three-valued control signal. -/
inductive TreeNodeRecursion : Type where
  | Continue
  | Jump
  | Stop
deriving DecidableEq

/-- `Transformed<T>` from the source: data, `transformed` change flag, and
the trailing control signal `tnr`. -/
structure Transformed (α : Type u) : Type u where
  data : α
  transformed : Bool
  tnr : TreeNodeRecursion
deriving DecidableEq

/-- `Transformed::yes`. -/
def Transformed.yes {α : Type u} (data : α) : Transformed α :=
  ⟨data, true, TreeNodeRecursion.Continue⟩

/-- `Transformed::no`. -/
def Transformed.no {α : Type u} (data : α) : Transformed α :=
  ⟨data, false, TreeNodeRecursion.Continue⟩

/-- `Transformed::update_data`. -/
def Transformed.update_data {α : Type u} {β : Type v}
    (t : Transformed α) (f : α → β) : Transformed β :=
  ⟨f t.data, t.transformed, t.tnr⟩

/-- `Transformed::try_transform_node_with` from the source, with the
follow-up operation `f` state-threaded and fueled:
on `Continue` apply `f` and OR the change flags, on `Jump` keep the data
and substitute `return_if_jump`, on `Stop` return the envelope unchanged. -/
def Transformed.try_transform_node_with {ε σ : Type} {β : Type}
    (t : Transformed β)
    (f : σ → β → Option (Except ε (σ × Transformed β)))
    (return_if_jump : TreeNodeRecursion) (s : σ) :
    Option (Except ε (σ × Transformed β)) :=
  match t.tnr with
  | TreeNodeRecursion.Continue =>
    obind (f s t.data) fun sr =>
      oret (sr.1, ⟨sr.2.data, sr.2.transformed || t.transformed, sr.2.tnr⟩)
  | TreeNodeRecursion.Jump =>
    oret (s, ⟨t.data, t.transformed, return_if_jump⟩)
  | TreeNodeRecursion.Stop => oret (s, t)

/-- The loop of `TransformedIterator::map_until_stop_and_collect`:
left-to-right over the siblings, carrying the running signal `tnr` and the
accumulated `transformed` flag.  While the running signal is `Continue` or
`Jump` the operation is applied and its reported signal overwrites the
running one; once it is `Stop`, remaining elements are passed through
untouched without invoking the operation. -/
def map_until_stop_and_collect_go {ε σ : Type} {α : Type}
    (f : σ → α → Option (Except ε (σ × Transformed α))) :
    List α → TreeNodeRecursion → Bool → σ →
    Option (Except ε (σ × Transformed (List α)))
  | [], tnr, tf, s => oret (s, ⟨[], tf, tnr⟩)
  | x :: xs, tnr, tf, s =>
    match tnr with
    | TreeNodeRecursion.Stop =>
      obind (map_until_stop_and_collect_go f xs TreeNodeRecursion.Stop tf s)
        fun sr => oret (sr.1, ⟨x :: sr.2.data, sr.2.transformed, sr.2.tnr⟩)
    | _ =>
      obind (f s x) fun sr =>
        obind (map_until_stop_and_collect_go f xs sr.2.tnr
            (tf || sr.2.transformed) sr.1) fun st =>
          oret (st.1, ⟨sr.2.data :: st.2.data, st.2.transformed, st.2.tnr⟩)

/-- `TransformedIterator::map_until_stop_and_collect`: the loop started
with running signal `Continue` and no accumulated change. -/
def map_until_stop_and_collect {ε σ : Type} {α : Type}
    (f : σ → α → Option (Except ε (σ × Transformed α)))
    (xs : List α) (s : σ) :
    Option (Except ε (σ × Transformed (List α))) :=
  map_until_stop_and_collect_go f xs TreeNodeRecursion.Continue false s

/-- The loop of `apply_children` (same in all three `TreeNode`
implementations): fold the per-child signal left to right, short-circuit
on `Stop`, treat `Jump` like `Continue` (macro with no direction), and
return the last computed signal. -/
def apply_children_go {ε σ : Type} {α : Type}
    (op : α → σ → Option (Except ε (σ × TreeNodeRecursion))) :
    List α → TreeNodeRecursion → σ →
    Option (Except ε (σ × TreeNodeRecursion))
  | [], tnr, s => oret (s, tnr)
  | c :: cs, _, s =>
    obind (op c s) fun st =>
      match st.2 with
      | TreeNodeRecursion.Stop => oret (st.1, TreeNodeRecursion.Stop)
      | tnr => apply_children_go op cs tnr st.1

/-- The by-value tree used by the module's test suite (`TestTreeNode`):
an ordered list of children plus a data payload. -/
inductive TestTreeNode (α : Type u) : Type u where
  | node : List (TestTreeNode α) → α → TestTreeNode α

/-- The children list of a node. -/
def TestTreeNode.children {α : Type u} : TestTreeNode α → List (TestTreeNode α)
  | TestTreeNode.node cs _ => cs

/-- The data payload of a node. -/
def TestTreeNode.data {α : Type u} : TestTreeNode α → α
  | TestTreeNode.node _ d => d

/-- `TestTreeNode::apply_children`: run the signal-only loop over the
children, starting from `Continue`. -/
def TestTreeNode.apply_children {ε σ : Type} {α : Type}
    (op : TestTreeNode α → σ → Option (Except ε (σ × TreeNodeRecursion)))
    (t : TestTreeNode α) (s : σ) :
    Option (Except ε (σ × TreeNodeRecursion)) :=
  apply_children_go op t.children TreeNodeRecursion.Continue s

/-- `TestTreeNode::map_children`: rewrite the children with the sibling
aggregator, then rebuild the node around the (possibly replaced) children,
keeping the node's own data. -/
def TestTreeNode.map_children {ε σ : Type} {α : Type}
    (op : σ → TestTreeNode α → Option (Except ε (σ × Transformed (TestTreeNode α))))
    (t : TestTreeNode α) (s : σ) :
    Option (Except ε (σ × Transformed (TestTreeNode α))) :=
  obind (map_until_stop_and_collect op t.children s) fun sr =>
    oret (sr.1, ⟨TestTreeNode.node sr.2.data t.data, sr.2.transformed, sr.2.tnr⟩)

/-- `TreeNodeVisitor`: the pre/post callback pair of the read-only walk,
state-threaded. -/
structure TreeNodeVisitor (σ : Type) (α : Type) (ε : Type) : Type where
  f_down : σ → TestTreeNode α → Except ε (σ × TreeNodeRecursion)
  f_up : σ → TestTreeNode α → Except ε (σ × TreeNodeRecursion)

/-- `TreeNodeRewriter`: the pre/post callback pair of the rewriting walk,
state-threaded. -/
structure TreeNodeRewriter (σ : Type) (α : Type) (ε : Type) : Type where
  f_down : σ → TestTreeNode α → Except ε (σ × Transformed (TestTreeNode α))
  f_up : σ → TestTreeNode α → Except ε (σ × Transformed (TestTreeNode α))

/-- `TreeNode::visit`: call `f_down`; on `Continue` visit the children and
resolve their aggregate signal with UP bias (`Jump` from the children
skips this node's `f_up` and keeps propagating, `Stop` aborts); on `Jump`
skip the children and call `f_up` directly; on `Stop` abort. -/
def TestTreeNode.visit {ε σ : Type} {α : Type} (v : TreeNodeVisitor σ α ε) :
    Nat → TestTreeNode α → σ → Option (Except ε (σ × TreeNodeRecursion))
  | 0, _, _ => none
  | n + 1, t, s =>
    obind (olift (v.f_down s t)) fun st =>
      match st.2 with
      | TreeNodeRecursion.Continue =>
        obind (t.apply_children (fun c s' => TestTreeNode.visit v n c s') st.1)
          fun sc =>
          match sc.2 with
          | TreeNodeRecursion.Continue => olift (v.f_up sc.1 t)
          | TreeNodeRecursion.Jump => oret (sc.1, TreeNodeRecursion.Jump)
          | TreeNodeRecursion.Stop => oret (sc.1, TreeNodeRecursion.Stop)
      | TreeNodeRecursion.Jump => olift (v.f_up st.1 t)
      | TreeNodeRecursion.Stop => oret (st.1, TreeNodeRecursion.Stop)

/-- `TreeNode::apply`: single-callback pre-order scan; the macro with
direction DOWN turns the callback's `Jump` into an immediate
`Ok(Continue)` without visiting the children, and `Stop` into `Ok(Stop)`. -/
def TestTreeNode.apply {ε σ : Type} {α : Type}
    (f : σ → TestTreeNode α → Except ε (σ × TreeNodeRecursion)) :
    Nat → TestTreeNode α → σ → Option (Except ε (σ × TreeNodeRecursion))
  | 0, _, _ => none
  | n + 1, t, s =>
    obind (olift (f s t)) fun st =>
      match st.2 with
      | TreeNodeRecursion.Continue =>
        t.apply_children (fun c s' => TestTreeNode.apply f n c s') st.1
      | TreeNodeRecursion.Jump => oret (st.1, TreeNodeRecursion.Continue)
      | TreeNodeRecursion.Stop => oret (st.1, TreeNodeRecursion.Stop)

/-- `TreeNode::rewrite` (the `handle_transform_recursion` macro applied to
`rewriter.f_down` / recursive self-call / `rewriter.f_up`): apply
`f_down`; on `Continue` rewrite the children of the `f_down` result and
compose `f_up` with `return_if_jump = Jump`; on `Jump` apply `f_up`
directly to the `f_down` result (children untouched); on `Stop` return
the `f_down` envelope at once.  Except in the `Stop` case, the `f_down`
change flag is OR-ed into the final envelope. -/
def TestTreeNode.rewrite {ε σ : Type} {α : Type} (r : TreeNodeRewriter σ α ε) :
    Nat → TestTreeNode α → σ → Option (Except ε (σ × Transformed (TestTreeNode α)))
  | 0, _, _ => none
  | n + 1, t, s =>
    obind (olift (r.f_down s t)) fun sp =>
      match sp.2.tnr with
      | TreeNodeRecursion.Continue =>
        obind (sp.2.data.map_children
            (fun s' c => TestTreeNode.rewrite r n c s') sp.1) fun smc =>
          obind (smc.2.try_transform_node_with
              (fun s' d => olift (r.f_up s' d)) TreeNodeRecursion.Jump smc.1)
            fun spv =>
            oret (spv.1,
              ⟨spv.2.data, spv.2.transformed || sp.2.transformed, spv.2.tnr⟩)
      | TreeNodeRecursion.Jump =>
        obind (olift (r.f_up sp.1 sp.2.data)) fun spv =>
          oret (spv.1,
            ⟨spv.2.data, spv.2.transformed || sp.2.transformed, spv.2.tnr⟩)
      | TreeNodeRecursion.Stop => oret sp

/-- `TreeNode::transform_down`: apply `f`, then compose the recursive
children rewrite with `return_if_jump = Continue` (a `Jump` from `f` only
prunes this node's children). -/
def TestTreeNode.transform_down {ε σ : Type} {α : Type}
    (f : σ → TestTreeNode α → Except ε (σ × Transformed (TestTreeNode α))) :
    Nat → TestTreeNode α → σ → Option (Except ε (σ × Transformed (TestTreeNode α)))
  | 0, _, _ => none
  | n + 1, t, s =>
    obind (olift (f s t)) fun sp =>
      sp.2.try_transform_node_with
        (fun s' d => d.map_children
          (fun s'' c => TestTreeNode.transform_down f n c s'') s')
        TreeNodeRecursion.Continue sp.1

/-- `TreeNode::transform_up`: rewrite the children first, then compose
`f` on the node with `return_if_jump = Jump`. -/
def TestTreeNode.transform_up {ε σ : Type} {α : Type}
    (f : σ → TestTreeNode α → Except ε (σ × Transformed (TestTreeNode α))) :
    Nat → TestTreeNode α → σ → Option (Except ε (σ × Transformed (TestTreeNode α)))
  | 0, _, _ => none
  | n + 1, t, s =>
    obind (t.map_children (fun s' c => TestTreeNode.transform_up f n c s') s)
      fun smc =>
      smc.2.try_transform_node_with (fun s' d => olift (f s' d))
        TreeNodeRecursion.Jump smc.1

/-- `TreeNode::transform_down_up`: the same `handle_transform_recursion`
expansion as `rewrite`, taking the two closures directly. -/
def TestTreeNode.transform_down_up {ε σ : Type} {α : Type}
    (fd : σ → TestTreeNode α → Except ε (σ × Transformed (TestTreeNode α)))
    (fu : σ → TestTreeNode α → Except ε (σ × Transformed (TestTreeNode α)))
    (fuel : Nat) (t : TestTreeNode α) (s : σ) :
    Option (Except ε (σ × Transformed (TestTreeNode α))) :=
  TestTreeNode.rewrite ⟨fd, fu⟩ fuel t s

/-- The ten node labels of the test tree. -/
inductive Letter : Type where
  | a | b | c | d | e | f | g | h | i | j
deriving DecidableEq

/-- Node payloads: an original label, or the result of the renaming the
scenario callbacks perform (`fd x` models the string `f_down(x)`, `fu x`
models `f_up(x)`). -/
inductive NodeData : Type where
  | orig : Letter → NodeData
  | fd : NodeData → NodeData
  | fu : NodeData → NodeData
deriving DecidableEq

/-- One recorded callback invocation: which callback fired and the data of
the node it received. -/
inductive VisitEvent : Type where
  | downOn : NodeData → VisitEvent
  | upOn : NodeData → VisitEvent
deriving DecidableEq

/-- The 11-node test tree J→I→F→{E→C→{B, D→A}, G→H} from the module's
test suite. -/
def test_tree : TestTreeNode NodeData :=
  TestTreeNode.node
    [TestTreeNode.node
      [TestTreeNode.node
        [TestTreeNode.node
          [TestTreeNode.node
            [TestTreeNode.node [] (NodeData.orig Letter.b),
             TestTreeNode.node
               [TestTreeNode.node [] (NodeData.orig Letter.a)]
               (NodeData.orig Letter.d)]
            (NodeData.orig Letter.c)]
          (NodeData.orig Letter.e),
         TestTreeNode.node
           [TestTreeNode.node [] (NodeData.orig Letter.h)]
           (NodeData.orig Letter.g)]
        (NodeData.orig Letter.f)]
      (NodeData.orig Letter.i)]
    (NodeData.orig Letter.j)

/-- A `transform_yes("f_down")`-style pre callback: log the invocation,
rename the node's data, report changed with `Continue`. -/
def f_down_yes : List VisitEvent → TestTreeNode NodeData →
    Except (List VisitEvent) (List VisitEvent × Transformed (TestTreeNode NodeData)) :=
  fun log t =>
    Except.ok (log ++ [VisitEvent.downOn t.data],
      Transformed.yes (TestTreeNode.node t.children (NodeData.fd t.data)))

/-- A `transform_yes("f_up")`-style post callback. -/
def f_up_yes : List VisitEvent → TestTreeNode NodeData →
    Except (List VisitEvent) (List VisitEvent × Transformed (TestTreeNode NodeData)) :=
  fun log t =>
    Except.ok (log ++ [VisitEvent.upOn t.data],
      Transformed.yes (TestTreeNode.node t.children (NodeData.fu t.data)))

/-- The rewriter of the all-`Continue` scenario: rename on the way down
and on the way up, always report changed and `Continue`. -/
def rename_rewriter : TreeNodeRewriter (List VisitEvent) NodeData (List VisitEvent) :=
  ⟨f_down_yes, f_up_yes⟩

/-- The expected invocation sequence of the all-`Continue` combined
traversal (`all_visits` in the test suite); an `f_up` entry carries the
already renamed data its callback received. -/
def all_visits : List VisitEvent :=
  [VisitEvent.downOn (NodeData.orig Letter.j),
   VisitEvent.downOn (NodeData.orig Letter.i),
   VisitEvent.downOn (NodeData.orig Letter.f),
   VisitEvent.downOn (NodeData.orig Letter.e),
   VisitEvent.downOn (NodeData.orig Letter.c),
   VisitEvent.downOn (NodeData.orig Letter.b),
   VisitEvent.upOn (NodeData.fd (NodeData.orig Letter.b)),
   VisitEvent.downOn (NodeData.orig Letter.d),
   VisitEvent.downOn (NodeData.orig Letter.a),
   VisitEvent.upOn (NodeData.fd (NodeData.orig Letter.a)),
   VisitEvent.upOn (NodeData.fd (NodeData.orig Letter.d)),
   VisitEvent.upOn (NodeData.fd (NodeData.orig Letter.c)),
   VisitEvent.upOn (NodeData.fd (NodeData.orig Letter.e)),
   VisitEvent.downOn (NodeData.orig Letter.g),
   VisitEvent.downOn (NodeData.orig Letter.h),
   VisitEvent.upOn (NodeData.fd (NodeData.orig Letter.h)),
   VisitEvent.upOn (NodeData.fd (NodeData.orig Letter.g)),
   VisitEvent.upOn (NodeData.fd (NodeData.orig Letter.f)),
   VisitEvent.upOn (NodeData.fd (NodeData.orig Letter.i)),
   VisitEvent.upOn (NodeData.fd (NodeData.orig Letter.j))]

/-- The expected output tree of the all-`Continue` combined traversal
(`transformed_tree` in the test suite): every payload becomes
`f_up(f_down(original))`. -/
def transformed_tree : TestTreeNode NodeData :=
  TestTreeNode.node
    [TestTreeNode.node
      [TestTreeNode.node
        [TestTreeNode.node
          [TestTreeNode.node
            [TestTreeNode.node []
               (NodeData.fu (NodeData.fd (NodeData.orig Letter.b))),
             TestTreeNode.node
               [TestTreeNode.node []
                  (NodeData.fu (NodeData.fd (NodeData.orig Letter.a)))]
               (NodeData.fu (NodeData.fd (NodeData.orig Letter.d)))]
            (NodeData.fu (NodeData.fd (NodeData.orig Letter.c)))]
          (NodeData.fu (NodeData.fd (NodeData.orig Letter.e))),
         TestTreeNode.node
           [TestTreeNode.node []
              (NodeData.fu (NodeData.fd (NodeData.orig Letter.h)))]
           (NodeData.fu (NodeData.fd (NodeData.orig Letter.g)))]
        (NodeData.fu (NodeData.fd (NodeData.orig Letter.f)))]
      (NodeData.fu (NodeData.fd (NodeData.orig Letter.i)))]
    (NodeData.fu (NodeData.fd (NodeData.orig Letter.j)))


/-- A `transform_and_event_on`-style post callback: log, rename, report
changed, and report the given signal exactly when the received data
matches `trigger` (otherwise `Continue`). -/
def f_up_event_on (trigger : NodeData) (event : TreeNodeRecursion) :
    List VisitEvent → TestTreeNode NodeData →
    Except (List VisitEvent) (List VisitEvent × Transformed (TestTreeNode NodeData)) :=
  fun log t =>
    Except.ok (log ++ [VisitEvent.upOn t.data],
      ⟨TestTreeNode.node t.children (NodeData.fu t.data), true,
        if t.data = trigger then event else TreeNodeRecursion.Continue⟩)

/-- A `transform_and_event_on`-style pre callback. -/
def f_down_event_on (trigger : NodeData) (event : TreeNodeRecursion) :
    List VisitEvent → TestTreeNode NodeData →
    Except (List VisitEvent) (List VisitEvent × Transformed (TestTreeNode NodeData)) :=
  fun log t =>
    Except.ok (log ++ [VisitEvent.downOn t.data],
      ⟨TestTreeNode.node t.children (NodeData.fd t.data), true,
        if t.data = trigger then event else TreeNodeRecursion.Continue⟩)

/-- Scenario 8 rewriter: `f_down` reports `Jump` exactly on node E. -/
def down_jump_on_e_rewriter :
    TreeNodeRewriter (List VisitEvent) NodeData (List VisitEvent) :=
  ⟨f_down_event_on (NodeData.orig Letter.e) TreeNodeRecursion.Jump, f_up_yes⟩

/-- Expected invocation sequence when `f_down` jumps on E: E's subtree is
never entered, `f_up` still fires for E itself. -/
def f_down_jump_on_e_visits : List VisitEvent :=
  [VisitEvent.downOn (NodeData.orig Letter.j),
   VisitEvent.downOn (NodeData.orig Letter.i),
   VisitEvent.downOn (NodeData.orig Letter.f),
   VisitEvent.downOn (NodeData.orig Letter.e),
   VisitEvent.upOn (NodeData.fd (NodeData.orig Letter.e)),
   VisitEvent.downOn (NodeData.orig Letter.g),
   VisitEvent.downOn (NodeData.orig Letter.h),
   VisitEvent.upOn (NodeData.fd (NodeData.orig Letter.h)),
   VisitEvent.upOn (NodeData.fd (NodeData.orig Letter.g)),
   VisitEvent.upOn (NodeData.fd (NodeData.orig Letter.f)),
   VisitEvent.upOn (NodeData.fd (NodeData.orig Letter.i)),
   VisitEvent.upOn (NodeData.fd (NodeData.orig Letter.j))]

/-- Expected output tree when `f_down` jumps on E
(`f_down_jump_on_e_transformed_tree` in the test suite): A, B, C, D keep
their original payloads, every other node becomes `f_up(f_down(·))`. -/
def f_down_jump_on_e_transformed_tree : TestTreeNode NodeData :=
  TestTreeNode.node
    [TestTreeNode.node
      [TestTreeNode.node
        [TestTreeNode.node
          [TestTreeNode.node
            [TestTreeNode.node [] (NodeData.orig Letter.b),
             TestTreeNode.node
               [TestTreeNode.node [] (NodeData.orig Letter.a)]
               (NodeData.orig Letter.d)]
            (NodeData.orig Letter.c)]
          (NodeData.fu (NodeData.fd (NodeData.orig Letter.e))),
         TestTreeNode.node
           [TestTreeNode.node []
              (NodeData.fu (NodeData.fd (NodeData.orig Letter.h)))]
           (NodeData.fu (NodeData.fd (NodeData.orig Letter.g)))]
        (NodeData.fu (NodeData.fd (NodeData.orig Letter.f)))]
      (NodeData.fu (NodeData.fd (NodeData.orig Letter.i)))]
    (NodeData.fu (NodeData.fd (NodeData.orig Letter.j)))


/-- Scenario 9 rewriter: `f_up` reports `Jump` exactly when its input is
`f_down(a)`. -/
def up_jump_on_a_rewriter :
    TreeNodeRewriter (List VisitEvent) NodeData (List VisitEvent) :=
  ⟨f_down_yes,
   f_up_event_on (NodeData.fd (NodeData.orig Letter.a)) TreeNodeRecursion.Jump⟩

/-- Expected invocation sequence when `f_up` jumps on (the renamed) A:
`f_up` never fires for D, C or E, but fires for B, H, G, F, I, J
(`f_up_jump_on_a_visits` in the test suite). -/
def f_up_jump_on_a_visits : List VisitEvent :=
  [VisitEvent.downOn (NodeData.orig Letter.j),
   VisitEvent.downOn (NodeData.orig Letter.i),
   VisitEvent.downOn (NodeData.orig Letter.f),
   VisitEvent.downOn (NodeData.orig Letter.e),
   VisitEvent.downOn (NodeData.orig Letter.c),
   VisitEvent.downOn (NodeData.orig Letter.b),
   VisitEvent.upOn (NodeData.fd (NodeData.orig Letter.b)),
   VisitEvent.downOn (NodeData.orig Letter.d),
   VisitEvent.downOn (NodeData.orig Letter.a),
   VisitEvent.upOn (NodeData.fd (NodeData.orig Letter.a)),
   VisitEvent.downOn (NodeData.orig Letter.g),
   VisitEvent.downOn (NodeData.orig Letter.h),
   VisitEvent.upOn (NodeData.fd (NodeData.orig Letter.h)),
   VisitEvent.upOn (NodeData.fd (NodeData.orig Letter.g)),
   VisitEvent.upOn (NodeData.fd (NodeData.orig Letter.f)),
   VisitEvent.upOn (NodeData.fd (NodeData.orig Letter.i)),
   VisitEvent.upOn (NodeData.fd (NodeData.orig Letter.j))]

/-- Expected output tree when `f_up` jumps on (the renamed) A
(`f_up_jump_on_a_transformed_tree` in the test suite): only A and B carry
an `f_up(...)` wrapper, D, C, E keep just the `f_down(...)` rename. -/
def f_up_jump_on_a_transformed_tree : TestTreeNode NodeData :=
  TestTreeNode.node
    [TestTreeNode.node
      [TestTreeNode.node
        [TestTreeNode.node
          [TestTreeNode.node
            [TestTreeNode.node []
               (NodeData.fu (NodeData.fd (NodeData.orig Letter.b))),
             TestTreeNode.node
               [TestTreeNode.node []
                  (NodeData.fu (NodeData.fd (NodeData.orig Letter.a)))]
               (NodeData.fd (NodeData.orig Letter.d))]
            (NodeData.fd (NodeData.orig Letter.c))]
          (NodeData.fd (NodeData.orig Letter.e)),
         TestTreeNode.node
           [TestTreeNode.node []
              (NodeData.fu (NodeData.fd (NodeData.orig Letter.h)))]
           (NodeData.fu (NodeData.fd (NodeData.orig Letter.g)))]
        (NodeData.fu (NodeData.fd (NodeData.orig Letter.f)))]
      (NodeData.fu (NodeData.fd (NodeData.orig Letter.i)))]
    (NodeData.fu (NodeData.fd (NodeData.orig Letter.j)))


/-- Stop-scenario rewriter: `f_up` reports `Stop` exactly when its input
is `f_down(a)`. -/
def up_stop_on_a_rewriter :
    TreeNodeRewriter (List VisitEvent) NodeData (List VisitEvent) :=
  ⟨f_down_yes,
   f_up_event_on (NodeData.fd (NodeData.orig Letter.a)) TreeNodeRecursion.Stop⟩

/-- Expected invocation sequence when `f_up` stops on (the renamed) A: the
log ends at that very invocation (`f_up_stop_on_a_visits` in the test
suite). -/
def f_up_stop_on_a_visits : List VisitEvent :=
  [VisitEvent.downOn (NodeData.orig Letter.j),
   VisitEvent.downOn (NodeData.orig Letter.i),
   VisitEvent.downOn (NodeData.orig Letter.f),
   VisitEvent.downOn (NodeData.orig Letter.e),
   VisitEvent.downOn (NodeData.orig Letter.c),
   VisitEvent.downOn (NodeData.orig Letter.b),
   VisitEvent.upOn (NodeData.fd (NodeData.orig Letter.b)),
   VisitEvent.downOn (NodeData.orig Letter.d),
   VisitEvent.downOn (NodeData.orig Letter.a),
   VisitEvent.upOn (NodeData.fd (NodeData.orig Letter.a))]

/-- Expected output tree when `f_up` stops on (the renamed) A
(`f_up_stop_on_a_transformed_tree` in the test suite): G and H — siblings
processed after the abort would have been — keep their original payloads. -/
def f_up_stop_on_a_transformed_tree : TestTreeNode NodeData :=
  TestTreeNode.node
    [TestTreeNode.node
      [TestTreeNode.node
        [TestTreeNode.node
          [TestTreeNode.node
            [TestTreeNode.node []
               (NodeData.fu (NodeData.fd (NodeData.orig Letter.b))),
             TestTreeNode.node
               [TestTreeNode.node []
                  (NodeData.fu (NodeData.fd (NodeData.orig Letter.a)))]
               (NodeData.fd (NodeData.orig Letter.d))]
            (NodeData.fd (NodeData.orig Letter.c))]
          (NodeData.fd (NodeData.orig Letter.e)),
         TestTreeNode.node
           [TestTreeNode.node [] (NodeData.orig Letter.h)]
           (NodeData.orig Letter.g)]
        (NodeData.fd (NodeData.orig Letter.f))]
      (NodeData.fd (NodeData.orig Letter.i))]
    (NodeData.fd (NodeData.orig Letter.j))


/-- A read-only visitor callback that logs the invocation and reports
`Continue`. -/
def v_up_log : List VisitEvent → TestTreeNode NodeData →
    Except (List VisitEvent) (List VisitEvent × TreeNodeRecursion) :=
  fun log t => Except.ok (log ++ [VisitEvent.upOn t.data], TreeNodeRecursion.Continue)

/-- A read-only pre callback that logs the invocation and reports the
given signal exactly on the node whose data matches `trigger`. -/
def v_down_event_on (trigger : NodeData) (event : TreeNodeRecursion) :
    List VisitEvent → TestTreeNode NodeData →
    Except (List VisitEvent) (List VisitEvent × TreeNodeRecursion) :=
  fun log t =>
    Except.ok (log ++ [VisitEvent.downOn t.data],
      if t.data = trigger then event else TreeNodeRecursion.Continue)

/-- Read-only visitor whose `f_down` jumps exactly on node E. -/
def visit_jump_on_e_visitor :
    TreeNodeVisitor (List VisitEvent) NodeData (List VisitEvent) :=
  ⟨v_down_event_on (NodeData.orig Letter.e) TreeNodeRecursion.Jump, v_up_log⟩

/-- Expected `visit` invocation sequence when `f_down` jumps on E
(`f_down_jump_on_e_visits` for the read-only walk): E's descendants are
never visited, `f_up` still fires for E. -/
def visit_f_down_jump_on_e_visits : List VisitEvent :=
  [VisitEvent.downOn (NodeData.orig Letter.j),
   VisitEvent.downOn (NodeData.orig Letter.i),
   VisitEvent.downOn (NodeData.orig Letter.f),
   VisitEvent.downOn (NodeData.orig Letter.e),
   VisitEvent.upOn (NodeData.orig Letter.e),
   VisitEvent.downOn (NodeData.orig Letter.g),
   VisitEvent.downOn (NodeData.orig Letter.h),
   VisitEvent.upOn (NodeData.orig Letter.h),
   VisitEvent.upOn (NodeData.orig Letter.g),
   VisitEvent.upOn (NodeData.orig Letter.f),
   VisitEvent.upOn (NodeData.orig Letter.i),
   VisitEvent.upOn (NodeData.orig Letter.j)]


/-- An `apply` callback that logs the invocation and reports `Jump`
exactly on node E. -/
def apply_jump_on_e : List VisitEvent → TestTreeNode NodeData →
    Except (List VisitEvent) (List VisitEvent × TreeNodeRecursion) :=
  v_down_event_on (NodeData.orig Letter.e) TreeNodeRecursion.Jump

/-- The callback rewrite the claim about `apply` compares against:
the same callback with every reported `Jump` replaced by `Continue`. -/
def jump_to_continue {ε σ : Type} {α : Type}
    (f : σ → TestTreeNode α → Except ε (σ × TreeNodeRecursion)) :
    σ → TestTreeNode α → Except ε (σ × TreeNodeRecursion) :=
  fun s t =>
    (f s t).map fun p =>
      (p.1, if p.2 = TreeNodeRecursion.Jump then TreeNodeRecursion.Continue else p.2)

/-- Expected `apply` log with the jumping callback: E's subtree pruned. -/
def apply_jump_on_e_visits : List VisitEvent :=
  [VisitEvent.downOn (NodeData.orig Letter.j),
   VisitEvent.downOn (NodeData.orig Letter.i),
   VisitEvent.downOn (NodeData.orig Letter.f),
   VisitEvent.downOn (NodeData.orig Letter.e),
   VisitEvent.downOn (NodeData.orig Letter.g),
   VisitEvent.downOn (NodeData.orig Letter.h)]

/-- Expected `apply` log with the `Jump`-to-`Continue` callback: all
eleven nodes in pre-order. -/
def apply_all_down_visits : List VisitEvent :=
  [VisitEvent.downOn (NodeData.orig Letter.j),
   VisitEvent.downOn (NodeData.orig Letter.i),
   VisitEvent.downOn (NodeData.orig Letter.f),
   VisitEvent.downOn (NodeData.orig Letter.e),
   VisitEvent.downOn (NodeData.orig Letter.c),
   VisitEvent.downOn (NodeData.orig Letter.b),
   VisitEvent.downOn (NodeData.orig Letter.d),
   VisitEvent.downOn (NodeData.orig Letter.a),
   VisitEvent.downOn (NodeData.orig Letter.g),
   VisitEvent.downOn (NodeData.orig Letter.h)]



/-- Rewriter whose `f_up` fails exactly when its input is `f_down(c)`;
the error value it produces is its own invocation log, so the traversal
result shows both that the error is passed through unchanged and that no
callback ran after the failing one. -/
def up_err_on_c_rewriter :
    TreeNodeRewriter (List VisitEvent) NodeData (List VisitEvent) :=
  ⟨f_down_yes,
   fun log t =>
     if t.data = NodeData.fd (NodeData.orig Letter.c) then
       Except.error (log ++ [VisitEvent.upOn t.data])
     else f_up_yes log t⟩

/-- Expected log carried by the error when `f_up` fails on (the renamed)
C: exactly the invocations up to and including the failing one. -/
def f_up_err_on_c_visits : List VisitEvent :=
  [VisitEvent.downOn (NodeData.orig Letter.j),
   VisitEvent.downOn (NodeData.orig Letter.i),
   VisitEvent.downOn (NodeData.orig Letter.f),
   VisitEvent.downOn (NodeData.orig Letter.e),
   VisitEvent.downOn (NodeData.orig Letter.c),
   VisitEvent.downOn (NodeData.orig Letter.b),
   VisitEvent.upOn (NodeData.fd (NodeData.orig Letter.b)),
   VisitEvent.downOn (NodeData.orig Letter.d),
   VisitEvent.downOn (NodeData.orig Letter.a),
   VisitEvent.upOn (NodeData.fd (NodeData.orig Letter.a)),
   VisitEvent.upOn (NodeData.fd (NodeData.orig Letter.d)),
   VisitEvent.upOn (NodeData.fd (NodeData.orig Letter.c))]


/-- Shared helper: once the running signal is `Stop`, the sibling
aggregator passes every remaining element through untouched, leaves the
state alone (the operation is not invoked: the result is the same for
every `f`, including an always-failing one), and keeps the accumulated
change flag. -/
theorem musc_go_stop {ε σ : Type} {α : Type}
    (f : σ → α → Option (Except ε (σ × Transformed α))) :
    ∀ (xs : List α) (tf : Bool) (s : σ),
      map_until_stop_and_collect_go f xs TreeNodeRecursion.Stop tf s =
        oret (s, ⟨xs, tf, TreeNodeRecursion.Stop⟩) := by
  intro xs
  induction xs with
  | nil => intro tf s; rfl
  | cons x xs ih =>
    intro tf s
    simp [map_until_stop_and_collect_go, ih, obind, oret]

/-- Shared helper: with a non-`Stop` running signal the aggregator applies
the operation to the head element and continues with the reported signal;
`Jump` and `Continue` running signals behave identically. -/
theorem musc_go_cons_nonstop {ε σ : Type} {α : Type}
    (f : σ → α → Option (Except ε (σ × Transformed α)))
    (x : α) (xs : List α) (tnr : TreeNodeRecursion) (tf : Bool) (s : σ)
    (h : tnr ≠ TreeNodeRecursion.Stop) :
    map_until_stop_and_collect_go f (x :: xs) tnr tf s =
      obind (f s x) fun sr =>
        obind (map_until_stop_and_collect_go f xs sr.2.tnr
            (tf || sr.2.transformed) sr.1) fun st =>
          oret (st.1, ⟨sr.2.data :: st.2.data, st.2.transformed, st.2.tnr⟩) := by
  cases tnr with
  | Continue => rfl
  | Jump => rfl
  | Stop => exact absurd rfl h

/-- Shared helper: the aggregator never changes the number of siblings. -/
theorem musc_go_length {ε σ : Type} {α : Type}
    (f : σ → α → Option (Except ε (σ × Transformed α))) :
    ∀ (xs : List α) (tnr : TreeNodeRecursion) (tf : Bool) (s : σ)
      (sp : σ × Transformed (List α)),
      map_until_stop_and_collect_go f xs tnr tf s = some (Except.ok sp) →
      sp.2.data.length = xs.length := by
  intro xs
  induction xs with
  | nil =>
    intro tnr tf s sp h
    simp [map_until_stop_and_collect_go, oret] at h
    subst h
    rfl
  | cons x xs ih =>
    intro tnr tf s sp h
    by_cases htnr : tnr = TreeNodeRecursion.Stop
    · subst htnr
      rw [musc_go_stop] at h
      simp [oret] at h
      subst h
      rfl
    · rw [musc_go_cons_nonstop f x xs _ tf s htnr] at h
      cases hfx : f s x with
      | none => rw [hfx] at h; simp [obind] at h
      | some r =>
        rw [hfx] at h
        cases r with
        | error e => simp [obind] at h
        | ok sr =>
          simp only [obind] at h
          cases hgo : map_until_stop_and_collect_go f xs sr.2.tnr
              (tf || sr.2.transformed) sr.1 with
          | none => rw [hgo] at h; simp at h
          | some q =>
            rw [hgo] at h
            cases q with
            | error e => simp at h
            | ok st =>
              simp [oret] at h
              subst h
              have := ih sr.2.tnr (tf || sr.2.transformed) sr.1 st (by rw [hgo])
              simpa using this

/-- Shared helper: if the per-element operation never reports a change,
the aggregator's accumulated change flag stays at its initial value. -/
theorem musc_go_unchanged {ε σ : Type} {α : Type}
    (f : σ → α → Option (Except ε (σ × Transformed α)))
    (hf : ∀ (s : σ) (c : α) (p : σ × Transformed α),
      f s c = some (Except.ok p) → p.2.transformed = false) :
    ∀ (xs : List α) (tnr : TreeNodeRecursion) (tf : Bool) (s : σ)
      (sp : σ × Transformed (List α)),
      map_until_stop_and_collect_go f xs tnr tf s = some (Except.ok sp) →
      sp.2.transformed = tf := by
  intro xs
  induction xs with
  | nil =>
    intro tnr tf s sp h
    simp [map_until_stop_and_collect_go, oret] at h
    subst h
    rfl
  | cons x xs ih =>
    intro tnr tf s sp h
    by_cases htnr : tnr = TreeNodeRecursion.Stop
    · subst htnr
      rw [musc_go_stop] at h
      simp [oret] at h
      subst h
      rfl
    · rw [musc_go_cons_nonstop f x xs _ tf s htnr] at h
      cases hfx : f s x with
      | none => rw [hfx] at h; simp [obind] at h
      | some r =>
        rw [hfx] at h
        cases r with
        | error e => simp [obind] at h
        | ok sr =>
          simp only [obind] at h
          cases hgo : map_until_stop_and_collect_go f xs sr.2.tnr
              (tf || sr.2.transformed) sr.1 with
          | none => rw [hgo] at h; simp at h
          | some q =>
            rw [hgo] at h
            cases q with
            | error e => simp at h
            | ok st =>
              simp [oret] at h
              subst h
              have hnc := hf s x sr hfx
              have := ih sr.2.tnr (tf || sr.2.transformed) sr.1 st (by rw [hgo])
              simpa [hnc] using this

/-- C1: on the 11-node tree J→I→F→{E→C→{B, D→A}, G→H}, `rewrite` with
pre/post callbacks that always report `Continue` and rename each node
invokes the callbacks in exactly the pre-order-then-post-order sequence
f_down(J), f_down(I), f_down(F), f_down(E), f_down(C), f_down(B),
f_up(B), f_down(D), f_down(A), f_up(A), f_up(D), f_up(C), f_up(E),
f_down(G), f_down(H), f_up(H), f_up(G), f_up(F), f_up(I), f_up(J) — an
`f_up` entry in the recorded log carries the node's data as renamed by
`f_down` — and every node's data in the returned tree equals
f_up(f_down(original)). -/
theorem rewrite_all_continue_scenario :
    TestTreeNode.rewrite rename_rewriter 20 test_tree [] =
      oret (all_visits,
        ⟨transformed_tree, true, TreeNodeRecursion.Continue⟩) := rfl

/-- C2: `try_transform_node_with` on an envelope whose signal is
`Continue` applies the follow-up operation and ORs the change flags; on
`Jump` it keeps the data and change flag and substitutes the
`return_if_jump` signal; on `Stop` it returns the envelope unchanged. -/
theorem try_transform_node_with_cases {ε σ β : Type} (d : β) (tf : Bool)
    (f : σ → β → Option (Except ε (σ × Transformed β)))
    (j : TreeNodeRecursion) (s : σ) :
    (Transformed.try_transform_node_with
        ⟨d, tf, TreeNodeRecursion.Continue⟩ f j s =
      obind (f s d) fun sr =>
        oret (sr.1, ⟨sr.2.data, sr.2.transformed || tf, sr.2.tnr⟩))
    ∧ (Transformed.try_transform_node_with
        ⟨d, tf, TreeNodeRecursion.Jump⟩ f j s = oret (s, ⟨d, tf, j⟩))
    ∧ (Transformed.try_transform_node_with
        ⟨d, tf, TreeNodeRecursion.Stop⟩ f j s =
      oret (s, ⟨d, tf, TreeNodeRecursion.Stop⟩)) :=
  ⟨rfl, rfl, rfl⟩

/-- C5: on the 11-node tree, with pre always `Continue` (renaming) and
post reporting `Jump` exactly when its input is f_down(A), the post
callback never fires for D, C or E (A's ancestor chain) but fires for B,
H, G, F, I, J — the recorded log is exactly `f_up_jump_on_a_visits` —
and in the returned tree only A and B carry an f_up(...) wrapper while
D, C, E keep only the f_down(...) rename. -/
theorem rewrite_f_up_jump_on_a_scenario :
    TestTreeNode.rewrite up_jump_on_a_rewriter 20 test_tree [] =
      oret (f_up_jump_on_a_visits,
        ⟨f_up_jump_on_a_transformed_tree, true, TreeNodeRecursion.Continue⟩) := rfl

/-- C7 counterexample: `apply` with a callback that reports `Jump` on
node E visits only J, I, F, E, G, H, while the same callback with every
`Jump` replaced by `Continue` visits all eleven nodes — so a `Jump` in
`apply` does not behave as `Continue`: it prunes the node's subtree. -/
theorem apply_jump_not_continue_cex :
    TestTreeNode.apply apply_jump_on_e 20 test_tree [] =
        oret (apply_jump_on_e_visits, TreeNodeRecursion.Continue)
    ∧ TestTreeNode.apply (jump_to_continue apply_jump_on_e) 20 test_tree [] =
        oret (apply_all_down_visits, TreeNodeRecursion.Continue)
    ∧ apply_jump_on_e_visits ≠ apply_all_down_visits :=
  ⟨rfl, rfl, by decide⟩

/-- C7 amended: in `apply`, a `Jump` reported by the callback prunes the
node's subtree — the callback is not invoked on any descendant — and the
node contributes `Continue` to the surrounding traversal, which resumes
with the next sibling; concretely, jumping on E yields the pre-order
visit sequence with E's subtree skipped. -/
theorem apply_jump_prunes :
    (∀ (ε σ α : Type)
       (f : σ → TestTreeNode α → Except ε (σ × TreeNodeRecursion))
       (n : Nat) (t : TestTreeNode α) (s s' : σ),
       f s t = Except.ok (s', TreeNodeRecursion.Jump) →
       TestTreeNode.apply f (n + 1) t s =
         oret (s', TreeNodeRecursion.Continue))
    ∧ TestTreeNode.apply apply_jump_on_e 20 test_tree [] =
        oret (apply_jump_on_e_visits, TreeNodeRecursion.Continue) := by
  refine ⟨?_, rfl⟩
  intro ε σ α f n t s s' h
  simp [TestTreeNode.apply, h, obind, olift, oret]

/-- Callback used by the C7 amended witness: always log and report
`Jump`. -/
def always_jump_cb : List VisitEvent → TestTreeNode NodeData →
    Except (List VisitEvent) (List VisitEvent × TreeNodeRecursion) :=
  fun s t => Except.ok (s ++ [VisitEvent.downOn t.data], TreeNodeRecursion.Jump)

/-- Small two-node tree D→A used by several witnesses. -/
def small_tree : TestTreeNode NodeData :=
  TestTreeNode.node [TestTreeNode.node [] (NodeData.orig Letter.a)]
    (NodeData.orig Letter.d)

/-- C7 amended witness: the pruning equation at a concrete two-node tree
whose root callback jumps. -/
theorem apply_jump_prunes_witness :
    always_jump_cb [] small_tree =
      Except.ok ([VisitEvent.downOn (NodeData.orig Letter.d)],
        TreeNodeRecursion.Jump)
    ∧ TestTreeNode.apply always_jump_cb 1 small_tree [] =
        oret ([VisitEvent.downOn (NodeData.orig Letter.d)],
          TreeNodeRecursion.Continue) :=
  ⟨rfl,
   apply_jump_prunes.1 (List VisitEvent) (List VisitEvent) NodeData
     always_jump_cb 0 small_tree [] _ rfl⟩

/-- C3: `Stop` is absolute.  (i) Once the aggregator's running signal is
`Stop`, every remaining sibling is passed through unmodified with the
state untouched — the result no longer depends on the operation, so the
operation is not invoked — and the accumulated change flag is returned
as is.  (ii) When the operation on a sibling reports `Stop`, its own
replacement and change report are kept and all later siblings pass
through unchanged.  (iii) A `Stop` from `visit`'s pre callback returns
immediately — no child visit, no post callback.  (iv) A `Stop` from
`rewrite`'s pre callback returns the pre envelope immediately.  (v) On
the 11-node tree, `rewrite` with post reporting `Stop` at (the renamed) A
logs no invocation after that one, leaves siblings G, H untouched, and
returns `changed = true` for the changes made before the `Stop`. -/
theorem stop_is_absolute :
    (∀ (ε σ α : Type) (f : σ → α → Option (Except ε (σ × Transformed α)))
       (xs : List α) (tf : Bool) (s : σ),
       map_until_stop_and_collect_go f xs TreeNodeRecursion.Stop tf s =
         oret (s, ⟨xs, tf, TreeNodeRecursion.Stop⟩))
    ∧ (∀ (ε σ α : Type) (f : σ → α → Option (Except ε (σ × Transformed α)))
       (x : α) (xs : List α) (tnr : TreeNodeRecursion) (tf : Bool)
       (s s₁ : σ) (r : Transformed α),
       tnr ≠ TreeNodeRecursion.Stop →
       f s x = oret (s₁, r) →
       r.tnr = TreeNodeRecursion.Stop →
       map_until_stop_and_collect_go f (x :: xs) tnr tf s =
         oret (s₁, ⟨r.data :: xs, tf || r.transformed, TreeNodeRecursion.Stop⟩))
    ∧ (∀ (ε σ α : Type) (v : TreeNodeVisitor σ α ε) (n : Nat)
       (t : TestTreeNode α) (s s' : σ),
       v.f_down s t = Except.ok (s', TreeNodeRecursion.Stop) →
       TestTreeNode.visit v (n + 1) t s = oret (s', TreeNodeRecursion.Stop))
    ∧ (∀ (ε σ α : Type) (r : TreeNodeRewriter σ α ε) (n : Nat)
       (t : TestTreeNode α) (s s' : σ) (pv : Transformed (TestTreeNode α)),
       r.f_down s t = Except.ok (s', pv) →
       pv.tnr = TreeNodeRecursion.Stop →
       TestTreeNode.rewrite r (n + 1) t s = oret (s', pv))
    ∧ TestTreeNode.rewrite up_stop_on_a_rewriter 20 test_tree [] =
        oret (f_up_stop_on_a_visits,
          ⟨f_up_stop_on_a_transformed_tree, true, TreeNodeRecursion.Stop⟩) := by
  refine ⟨?_, ?_, ?_, ?_, rfl⟩
  · intro ε σ α f xs tf s
    exact musc_go_stop f xs tf s
  · intro ε σ α f x xs tnr tf s s₁ r hnst hfx hstop
    rw [musc_go_cons_nonstop f x xs tnr tf s hnst, hfx]
    simp only [oret, obind]
    rw [hstop, musc_go_stop]
    simp [oret, obind]
  · intro ε σ α v n t s s' h
    simp [TestTreeNode.visit, h, obind, olift, oret]
  · intro ε σ α r n t s s' pv h hstop
    simp [TestTreeNode.rewrite, h, hstop, obind, olift, oret]

/-- Per-element operation for the C3 witness: rename and report `Stop`. -/
def stop_cb : Unit → Nat → Option (Except Unit (Unit × Transformed Nat)) :=
  fun s x => oret (s, ⟨x + 1, true, TreeNodeRecursion.Stop⟩)

/-- Visitor for the C3 witness: pre always reports `Stop`. -/
def unit_stop_visitor : TreeNodeVisitor Unit NodeData Unit :=
  ⟨fun s _ => Except.ok (s, TreeNodeRecursion.Stop),
   fun s _ => Except.ok (s, TreeNodeRecursion.Continue)⟩

/-- Rewriter for the C3 witness: pre always reports `Stop`. -/
def unit_stop_rewriter : TreeNodeRewriter Unit NodeData Unit :=
  ⟨fun s t => Except.ok (s, ⟨t, false, TreeNodeRecursion.Stop⟩),
   fun s t => Except.ok (s, Transformed.no t)⟩

/-- C3 witness: the sibling, visit and rewrite `Stop` facts instantiated
at concrete inputs. -/
theorem stop_is_absolute_witness :
    stop_cb () 5 = oret ((), ⟨6, true, TreeNodeRecursion.Stop⟩)
    ∧ map_until_stop_and_collect_go stop_cb [5, 7, 9]
        TreeNodeRecursion.Continue false () =
      oret ((), ⟨[6, 7, 9], true, TreeNodeRecursion.Stop⟩)
    ∧ unit_stop_visitor.f_down () small_tree =
        Except.ok ((), TreeNodeRecursion.Stop)
    ∧ TestTreeNode.visit unit_stop_visitor 1 small_tree () =
        oret ((), TreeNodeRecursion.Stop)
    ∧ unit_stop_rewriter.f_down () small_tree =
        Except.ok ((), ⟨small_tree, false, TreeNodeRecursion.Stop⟩)
    ∧ TestTreeNode.rewrite unit_stop_rewriter 1 small_tree () =
        oret ((), ⟨small_tree, false, TreeNodeRecursion.Stop⟩) :=
  ⟨rfl,
   stop_is_absolute.2.1 Unit Unit Nat stop_cb 5 [7, 9]
     TreeNodeRecursion.Continue false () () ⟨6, true, TreeNodeRecursion.Stop⟩
     (by decide) rfl rfl,
   rfl,
   stop_is_absolute.2.2.1 Unit Unit NodeData unit_stop_visitor 0
     small_tree () () rfl,
   rfl,
   stop_is_absolute.2.2.2.1 Unit Unit NodeData unit_stop_rewriter 0
     small_tree () () ⟨small_tree, false, TreeNodeRecursion.Stop⟩ rfl rfl⟩

/-- C4: `Jump` skips descent.  (i) In `visit`, a `Jump` from the pre
callback makes the traversal call the post callback on the node at once —
no callback ever runs on a descendant.  (ii) In `rewrite`, a `Jump` from
the pre callback makes the traversal apply the post callback directly to
the pre callback's output (children exactly as the pre callback left
them), OR-ing the change flags.  (iii) Concretely, on the 11-node tree a
pre `Jump` on E leaves E's whole child subtree (C, B, D, A) unvisited and
unrenamed, E becomes f_up(f_down(E)), and F, G, H, I, J are processed
normally, both for `visit` and for `rewrite`. -/
theorem jump_skips_descent :
    (∀ (ε σ α : Type) (v : TreeNodeVisitor σ α ε) (n : Nat)
       (t : TestTreeNode α) (s s' : σ),
       v.f_down s t = Except.ok (s', TreeNodeRecursion.Jump) →
       TestTreeNode.visit v (n + 1) t s = olift (v.f_up s' t))
    ∧ (∀ (ε σ α : Type) (r : TreeNodeRewriter σ α ε) (n : Nat)
       (t : TestTreeNode α) (s s' : σ) (pv : Transformed (TestTreeNode α)),
       r.f_down s t = Except.ok (s', pv) →
       pv.tnr = TreeNodeRecursion.Jump →
       TestTreeNode.rewrite r (n + 1) t s =
         obind (olift (r.f_up s' pv.data)) fun spv =>
           oret (spv.1,
             ⟨spv.2.data, spv.2.transformed || pv.transformed, spv.2.tnr⟩))
    ∧ TestTreeNode.visit visit_jump_on_e_visitor 20 test_tree [] =
        oret (visit_f_down_jump_on_e_visits, TreeNodeRecursion.Continue)
    ∧ TestTreeNode.rewrite down_jump_on_e_rewriter 20 test_tree [] =
        oret (f_down_jump_on_e_visits,
          ⟨f_down_jump_on_e_transformed_tree, true, TreeNodeRecursion.Continue⟩) := by
  refine ⟨?_, ?_, rfl, rfl⟩
  · intro ε σ α v n t s s' h
    simp [TestTreeNode.visit, h, obind, olift, oret]
  · intro ε σ α r n t s s' pv h hj
    simp [TestTreeNode.rewrite, h, hj, obind, olift, oret]

/-- Visitor for the C4 witness: pre always reports `Jump`. -/
def unit_jump_visitor : TreeNodeVisitor Unit NodeData Unit :=
  ⟨fun s _ => Except.ok (s, TreeNodeRecursion.Jump),
   fun s _ => Except.ok (s, TreeNodeRecursion.Continue)⟩

/-- Rewriter for the C4 witness: pre always reports `Jump`, post reports
a change with `Continue`. -/
def unit_jump_rewriter : TreeNodeRewriter Unit NodeData Unit :=
  ⟨fun s t => Except.ok (s, ⟨t, false, TreeNodeRecursion.Jump⟩),
   fun s t => Except.ok (s, Transformed.yes t)⟩

/-- C4 witness: the visit and rewrite `Jump`-at-the-node facts
instantiated at a concrete two-node tree. -/
theorem jump_skips_descent_witness :
    unit_jump_visitor.f_down () small_tree =
      Except.ok ((), TreeNodeRecursion.Jump)
    ∧ TestTreeNode.visit unit_jump_visitor 1 small_tree () =
        oret ((), TreeNodeRecursion.Continue)
    ∧ unit_jump_rewriter.f_down () small_tree =
        Except.ok ((), ⟨small_tree, false, TreeNodeRecursion.Jump⟩)
    ∧ TestTreeNode.rewrite unit_jump_rewriter 1 small_tree () =
        oret ((), ⟨small_tree, true, TreeNodeRecursion.Continue⟩) :=
  ⟨rfl,
   jump_skips_descent.1 Unit Unit NodeData unit_jump_visitor 0
     small_tree () () rfl,
   rfl,
   jump_skips_descent.2.1 Unit Unit NodeData unit_jump_rewriter 0
     small_tree () () ⟨small_tree, false, TreeNodeRecursion.Jump⟩ rfl rfl⟩

/-- C8: error propagation.  For each traversal entry point, a callback
failure is returned exactly as produced (same error value, no wrapping):
shown for the first callback each entry point invokes — the pre callback
at the node for `visit`, `apply`, `rewrite`, `transform_down` and
`transform_down_up`, and the bottom-up callback at a leaf for
`transform_up` — and, for a failure deep inside a traversal, by the
concrete run in which `f_up` fails at (the renamed) C: the error value
(the callback's own invocation log) comes back verbatim, and the log
ends at the failing invocation, so no callback ran after it. -/
theorem error_propagation :
    (∀ (ε σ α : Type) (v : TreeNodeVisitor σ α ε) (n : Nat)
       (t : TestTreeNode α) (s : σ) (e : ε),
       v.f_down s t = Except.error e →
       TestTreeNode.visit v (n + 1) t s = some (Except.error e))
    ∧ (∀ (ε σ α : Type) (f : σ → TestTreeNode α → Except ε (σ × TreeNodeRecursion))
       (n : Nat) (t : TestTreeNode α) (s : σ) (e : ε),
       f s t = Except.error e →
       TestTreeNode.apply f (n + 1) t s = some (Except.error e))
    ∧ (∀ (ε σ α : Type) (r : TreeNodeRewriter σ α ε) (n : Nat)
       (t : TestTreeNode α) (s : σ) (e : ε),
       r.f_down s t = Except.error e →
       TestTreeNode.rewrite r (n + 1) t s = some (Except.error e))
    ∧ (∀ (ε σ α : Type)
       (f : σ → TestTreeNode α → Except ε (σ × Transformed (TestTreeNode α)))
       (n : Nat) (t : TestTreeNode α) (s : σ) (e : ε),
       f s t = Except.error e →
       TestTreeNode.transform_down f (n + 1) t s = some (Except.error e))
    ∧ (∀ (ε σ α : Type)
       (f : σ → TestTreeNode α → Except ε (σ × Transformed (TestTreeNode α)))
       (n : Nat) (d : α) (s : σ) (e : ε),
       f s (TestTreeNode.node [] d) = Except.error e →
       TestTreeNode.transform_up f (n + 1) (TestTreeNode.node [] d) s =
         some (Except.error e))
    ∧ (∀ (ε σ α : Type)
       (fd fu : σ → TestTreeNode α → Except ε (σ × Transformed (TestTreeNode α)))
       (n : Nat) (t : TestTreeNode α) (s : σ) (e : ε),
       fd s t = Except.error e →
       TestTreeNode.transform_down_up fd fu (n + 1) t s =
         some (Except.error e))
    ∧ TestTreeNode.rewrite up_err_on_c_rewriter 20 test_tree [] =
        some (Except.error f_up_err_on_c_visits) := by
  refine ⟨?_, ?_, ?_, ?_, ?_, ?_, rfl⟩
  · intro ε σ α v n t s e h
    simp [TestTreeNode.visit, h, obind, olift]
  · intro ε σ α f n t s e h
    simp [TestTreeNode.apply, h, obind, olift]
  · intro ε σ α r n t s e h
    simp [TestTreeNode.rewrite, h, obind, olift]
  · intro ε σ α f n t s e h
    simp [TestTreeNode.transform_down, h, obind, olift]
  · intro ε σ α f n d s e h
    simp [TestTreeNode.transform_up, TestTreeNode.map_children,
      map_until_stop_and_collect, map_until_stop_and_collect_go,
      TestTreeNode.children, TestTreeNode.data,
      Transformed.try_transform_node_with, h, obind, olift, oret]
  · intro ε σ α fd fu n t s e h
    simp [TestTreeNode.transform_down_up, TestTreeNode.rewrite, h,
      obind, olift]

/-- Visitor for the C8 witness: pre always fails with error 42. -/
def err_visitor : TreeNodeVisitor Unit NodeData Nat :=
  ⟨fun _ _ => Except.error 42, fun s _ => Except.ok (s, TreeNodeRecursion.Continue)⟩

/-- Read-only callback for the C8 witness: always fails with error 42. -/
def err_cb : Unit → TestTreeNode NodeData → Except Nat (Unit × TreeNodeRecursion) :=
  fun _ _ => Except.error 42

/-- Rewriter for the C8 witness: pre always fails with error 7. -/
def err_rewriter : TreeNodeRewriter Unit NodeData Nat :=
  ⟨fun _ _ => Except.error 7, fun s t => Except.ok (s, Transformed.no t)⟩

/-- Rewriting callback for the C8 witness: always fails with error 9. -/
def err_tf : Unit → TestTreeNode NodeData →
    Except Nat (Unit × Transformed (TestTreeNode NodeData)) :=
  fun _ _ => Except.error 9

/-- C8 witness: the six entry-point error equations instantiated at
concrete failing callbacks. -/
theorem error_propagation_witness :
    err_visitor.f_down () small_tree = Except.error 42
    ∧ TestTreeNode.visit err_visitor 1 small_tree () = some (Except.error 42)
    ∧ TestTreeNode.apply err_cb 1 small_tree () = some (Except.error 42)
    ∧ TestTreeNode.rewrite err_rewriter 1 small_tree () = some (Except.error 7)
    ∧ TestTreeNode.transform_down err_tf 1 small_tree () = some (Except.error 9)
    ∧ TestTreeNode.transform_up err_tf 1
        (TestTreeNode.node [] (NodeData.orig Letter.a)) () = some (Except.error 9)
    ∧ TestTreeNode.transform_down_up err_tf err_tf 1 small_tree () =
        some (Except.error 9) :=
  ⟨rfl,
   error_propagation.1 Nat Unit NodeData err_visitor 0 small_tree () 42 rfl,
   error_propagation.2.1 Nat Unit NodeData err_cb 0 small_tree () 42 rfl,
   error_propagation.2.2.1 Nat Unit NodeData err_rewriter 0 small_tree () 7 rfl,
   error_propagation.2.2.2.1 Nat Unit NodeData err_tf 0 small_tree () 9 rfl,
   error_propagation.2.2.2.2.1 Nat Unit NodeData err_tf 0
     (NodeData.orig Letter.a) () 9 rfl,
   error_propagation.2.2.2.2.2.1 Nat Unit NodeData err_tf err_tf 0
     small_tree () 9 rfl⟩

/-- The `DynTreeNode` node contract (`Arc`-based shared-ownership trees):
enumerate children as shared handles, and rebuild from the original
handle plus a replacement children list. -/
structure DynTreeNodeModel (τ ε : Type) : Type where
  arc_children : τ → List τ
  with_new_arc_children : τ → τ → List τ → Except ε τ

/-- `impl TreeNode for Arc<T>`'s `map_children`: if there are children,
aggregate their rewrites; reconstruct with `with_new_arc_children` only
when some child reported a change, otherwise return the original handle
with `transformed = false`; with no children return `Transformed::no`. -/
def arc_map_children {τ ε σ : Type} (D : DynTreeNodeModel τ ε)
    (f : σ → τ → Option (Except ε (σ × Transformed τ)))
    (t : τ) (s : σ) : Option (Except ε (σ × Transformed τ)) :=
  let children := D.arc_children t
  if children.isEmpty then oret (s, Transformed.no t)
  else
    obind (map_until_stop_and_collect f children s) fun sr =>
      if sr.2.transformed then
        olift ((D.with_new_arc_children t t sr.2.data).map fun u =>
          (sr.1, ⟨u, sr.2.transformed, sr.2.tnr⟩))
      else oret (sr.1, ⟨t, false, sr.2.tnr⟩)

/-- The `ConcreteTreeNode` node contract (by-value trees): detach the
children, and reattach a replacement children list. -/
structure ConcreteTreeNodeModel (τ ε : Type) : Type where
  take_children : τ → τ × List τ
  with_new_children : τ → List τ → Except ε τ

/-- `impl TreeNode for T: ConcreteTreeNode`'s `map_children`: detach the
children; if there are any, aggregate their rewrites and reattach with
`with_new_children`; otherwise return `Transformed::no` of the detached
node. -/
def concrete_map_children {τ ε σ : Type} (C : ConcreteTreeNodeModel τ ε)
    (f : σ → τ → Option (Except ε (σ × Transformed τ)))
    (t : τ) (s : σ) : Option (Except ε (σ × Transformed τ)) :=
  let p := C.take_children t
  if p.2.isEmpty then oret (s, Transformed.no p.1)
  else
    obind (map_until_stop_and_collect f p.2 s) fun sr =>
      olift ((C.with_new_children p.1 sr.2.data).map fun u =>
        (sr.1, ⟨u, sr.2.transformed, sr.2.tnr⟩))

/-- C9: shared-ownership no-change identity.  If the per-child transform
never reports a change, then the `Arc` `map_children` returns the
original handle with `transformed = false` (its result is exactly the
aggregator's outcome with the original handle substituted for the data),
and the result does not depend on `with_new_arc_children` at all — the
reconstruction operation is never used. -/
theorem arc_no_change_identity :
    ∀ (τ ε σ : Type) (ch : τ → List τ)
      (wn wn' : τ → τ → List τ → Except ε τ)
      (f : σ → τ → Option (Except ε (σ × Transformed τ))) (t : τ) (s : σ),
      (∀ (s₀ : σ) (c : τ) (p : σ × Transformed τ),
        f s₀ c = some (Except.ok p) → p.2.transformed = false) →
      arc_map_children ⟨ch, wn⟩ f t s =
        obind (map_until_stop_and_collect f (ch t) s)
          (fun sr => oret (sr.1, ⟨t, false, sr.2.tnr⟩))
      ∧ arc_map_children ⟨ch, wn⟩ f t s = arc_map_children ⟨ch, wn'⟩ f t s := by
  intro τ ε σ ch wn wn' f t s hf
  have key : ∀ (wn₀ : τ → τ → List τ → Except ε τ),
      arc_map_children ⟨ch, wn₀⟩ f t s =
        obind (map_until_stop_and_collect f (ch t) s)
          (fun sr => oret (sr.1, ⟨t, false, sr.2.tnr⟩)) := by
    intro wn₀
    unfold arc_map_children
    by_cases hemp : (ch t).isEmpty
    · simp only [hemp, if_true]
      have : ch t = [] := by simpa [List.isEmpty_iff] using hemp
      simp [this, map_until_stop_and_collect, map_until_stop_and_collect_go,
        obind, oret, Transformed.no]
    · simp only [hemp, if_false]
      cases hm : map_until_stop_and_collect f (ch t) s with
      | none => simp [obind, hm]
      | some q =>
        cases q with
        | error e => simp [obind, hm]
        | ok sr =>
          have hun : sr.2.transformed = false :=
            musc_go_unchanged f hf (ch t) TreeNodeRecursion.Continue false s sr hm
          simp [obind, hm, hun]
  exact ⟨key wn, (key wn).trans (key wn').symm⟩

/-- Children enumeration for the C9 witness. -/
def arc_ch0 : Nat → List Nat := fun _ => [1, 2]

/-- Reconstruction for the C9 witness. -/
def arc_wn0 : Nat → Nat → List Nat → Except Nat Nat := fun _ _ _ => Except.ok 0

/-- Alternative (always failing) reconstruction for the C9 witness. -/
def arc_wn1 : Nat → Nat → List Nat → Except Nat Nat := fun _ _ _ => Except.error 3

/-- Per-child transform for the C9 witness: replace the data but report
no change. -/
def arc_f0 : Unit → Nat → Option (Except Nat (Unit × Transformed Nat)) :=
  fun s c => oret (s, ⟨c + 10, false, TreeNodeRecursion.Continue⟩)

/-- C9 witness: with a transform that reports no change, the `Arc`
`map_children` returns the original handle unchanged and agrees with the
run whose reconstruction always fails — so reconstruction was not used. -/
theorem arc_no_change_identity_witness :
    arc_map_children ⟨arc_ch0, arc_wn0⟩ arc_f0 5 () =
      obind (map_until_stop_and_collect arc_f0 (arc_ch0 5) ())
        (fun sr => oret (sr.1, ⟨5, false, sr.2.tnr⟩))
    ∧ arc_map_children ⟨arc_ch0, arc_wn0⟩ arc_f0 5 () =
        arc_map_children ⟨arc_ch0, arc_wn1⟩ arc_f0 5 () :=
  arc_no_change_identity Nat Nat Unit arc_ch0 arc_wn0 arc_wn1 arc_f0 5 ()
    (by intro s₀ c p h; simp [arc_f0, oret] at h; subst h; rfl)

/-- C10: same-length reconstruction.  (i) The sibling aggregator always
returns exactly as many elements as it was given.  (ii) Therefore the
`ConcreteTreeNode` `map_children` behaves identically when its
reconstruction operation is guarded to fail on any children list whose
length differs from the enumerated children's length — the guard can
never fire — and (iii) likewise for the `Arc` `map_children`. -/
theorem reconstruction_same_length :
    (∀ (ε σ α : Type) (f : σ → α → Option (Except ε (σ × Transformed α)))
       (xs : List α) (tnr : TreeNodeRecursion) (tf : Bool) (s : σ)
       (sp : σ × Transformed (List α)),
       map_until_stop_and_collect_go f xs tnr tf s = some (Except.ok sp) →
       sp.2.data.length = xs.length)
    ∧ (∀ (τ ε σ : Type) (C : ConcreteTreeNodeModel τ ε)
       (f : σ → τ → Option (Except ε (σ × Transformed τ))) (t : τ) (s : σ)
       (e₀ : ε),
       concrete_map_children
         ⟨C.take_children,
          fun nd l =>
            if l.length = (C.take_children t).2.length then
              C.with_new_children nd l
            else Except.error e₀⟩ f t s =
       concrete_map_children C f t s)
    ∧ (∀ (τ ε σ : Type) (D : DynTreeNodeModel τ ε)
       (f : σ → τ → Option (Except ε (σ × Transformed τ))) (t : τ) (s : σ)
       (e₀ : ε),
       arc_map_children
         ⟨D.arc_children,
          fun slf arcs l =>
            if l.length = (D.arc_children t).length then
              D.with_new_arc_children slf arcs l
            else Except.error e₀⟩ f t s =
       arc_map_children D f t s) := by
  refine ⟨?_, ?_, ?_⟩
  · intro ε σ α f xs tnr tf s sp h
    exact musc_go_length f xs tnr tf s sp h
  · intro τ ε σ C f t s e₀
    unfold concrete_map_children
    by_cases hemp : (C.take_children t).2.isEmpty
    · simp [hemp]
    · simp only [hemp, if_false]
      cases hm : map_until_stop_and_collect f (C.take_children t).2 s with
      | none => simp [obind, hm]
      | some q =>
        cases q with
        | error e => simp [obind, hm]
        | ok sr =>
          have hlen : sr.2.data.length = (C.take_children t).2.length :=
            musc_go_length f (C.take_children t).2 TreeNodeRecursion.Continue
              false s sr hm
          simp [obind, hm, hlen]
  · intro τ ε σ D f t s e₀
    unfold arc_map_children
    by_cases hemp : (D.arc_children t).isEmpty
    · simp [hemp]
    · simp only [hemp, if_false]
      cases hm : map_until_stop_and_collect f (D.arc_children t) s with
      | none => simp [obind, hm]
      | some q =>
        cases q with
        | error e => simp [obind, hm]
        | ok sr =>
          have hlen : sr.2.data.length = (D.arc_children t).length :=
            musc_go_length f (D.arc_children t) TreeNodeRecursion.Continue
              false s sr hm
          simp [obind, hm, hlen]

/-- Per-child transform for the C10 witness: rename and report a change. -/
def len_f0 : Unit → Nat → Option (Except Nat (Unit × Transformed Nat)) :=
  fun s c => oret (s, ⟨c + 10, true, TreeNodeRecursion.Continue⟩)

/-- C10 witness: the aggregator length invariant at a concrete run. -/
theorem reconstruction_same_length_witness :
    map_until_stop_and_collect_go len_f0 [1, 2, 3]
        TreeNodeRecursion.Continue false () =
      some (Except.ok ((), ⟨[11, 12, 13], true, TreeNodeRecursion.Continue⟩))
    ∧ ([11, 12, 13] : List Nat).length = ([1, 2, 3] : List Nat).length :=
  ⟨rfl,
   reconstruction_same_length.1 Nat Unit Nat len_f0 [1, 2, 3]
     TreeNodeRecursion.Continue false ()
     ((), ⟨[11, 12, 13], true, TreeNodeRecursion.Continue⟩) rfl⟩

/-- Instrumentation for the C6 statement: run the given per-element
operation and additionally append each reported signal to a log carried
in the state, so the log records exactly the operation's invocations, in
order. -/
def log_signals {ε σ : Type} {α : Type}
    (f : σ → α → Option (Except ε (σ × Transformed α))) :
    σ × List TreeNodeRecursion → α →
    Option (Except ε ((σ × List TreeNodeRecursion) × Transformed α)) :=
  fun sl x =>
    obind (f sl.1 x) fun sr => oret ((sr.1, sl.2 ++ [sr.2.tnr]), sr.2)

/-- The last element of a signal list, with a default for the empty
list. -/
def last_signal : List TreeNodeRecursion → TreeNodeRecursion → TreeNodeRecursion
  | [], d => d
  | t :: ts, _ => last_signal ts t

/-- Every entry of the list except possibly the last one differs from
`Stop`. -/
def no_stop_before_last : List TreeNodeRecursion → Prop
  | [] => True
  | [_] => True
  | t :: ts => t ≠ TreeNodeRecursion.Stop ∧ no_stop_before_last ts

/-- Shared helper for C6: over the instrumented operation, a successful
aggregator run extends the log by a block `lg` of reported signals such
that: the envelope's signal is the last reported one (the running signal
if nothing was reported); every report except possibly the last is not
`Stop`; at most one report per element; and the only way the reports cut
out early is a final `Stop`. -/
theorem musc_go_log_spec {ε σ : Type} {α : Type}
    (f : σ → α → Option (Except ε (σ × Transformed α))) :
    ∀ (xs : List α) (tnr : TreeNodeRecursion) (tf : Bool) (s : σ)
      (log₀ : List TreeNodeRecursion) (s' : σ)
      (log : List TreeNodeRecursion) (env : Transformed (List α)),
      tnr ≠ TreeNodeRecursion.Stop →
      map_until_stop_and_collect_go (log_signals f) xs tnr tf (s, log₀) =
        oret ((s', log), env) →
      ∃ lg, log = log₀ ++ lg ∧ env.tnr = last_signal lg tnr ∧
        no_stop_before_last lg ∧ lg.length ≤ xs.length ∧
        (lg.length < xs.length → last_signal lg tnr = TreeNodeRecursion.Stop) := by
  intro xs
  induction xs with
  | nil =>
    intro tnr tf s log₀ s' log env hns h
    simp [map_until_stop_and_collect_go, oret] at h
    obtain ⟨⟨hs, hlog⟩, henv⟩ := h
    subst hs; subst hlog; subst henv
    exact ⟨[], by simp, rfl, trivial, by simp, by simp⟩
  | cons x xs ih =>
    intro tnr tf s log₀ s' log env hns h
    rw [musc_go_cons_nonstop (log_signals f) x xs tnr tf (s, log₀) hns] at h
    cases hfx : f s x with
    | none =>
      rw [show log_signals f (s, log₀) x = none by
            simp [log_signals, hfx, obind]] at h
      simp [obind, oret] at h
    | some rx =>
      cases rx with
      | error e =>
        rw [show log_signals f (s, log₀) x = some (Except.error e) by
              simp [log_signals, hfx, obind]] at h
        simp [obind, oret] at h
      | ok p =>
        rw [show log_signals f (s, log₀) x =
              oret ((p.1, log₀ ++ [p.2.tnr]), p.2) by
              simp [log_signals, hfx, obind]] at h
        simp only [oret, obind] at h
        by_cases hst : p.2.tnr = TreeNodeRecursion.Stop
        · rw [hst, musc_go_stop] at h
          simp [oret] at h
          obtain ⟨⟨hs, hlog⟩, henv⟩ := h
          subst hs; subst henv
          refine ⟨[TreeNodeRecursion.Stop], ?_, rfl, trivial, by simp,
            by intro _; rfl⟩
          rw [← hlog]
        · cases hgo : map_until_stop_and_collect_go (log_signals f) xs p.2.tnr
              (tf || p.2.transformed) (p.1, log₀ ++ [p.2.tnr]) with
          | none => rw [hgo] at h; simp at h
          | some q =>
            rw [hgo] at h
            cases q with
            | error e => simp at h
            | ok st =>
              simp [oret] at h
              obtain ⟨hw, henv⟩ := h
              obtain ⟨lg', hlg, htnr, hnostop, hlen, hshort⟩ :=
                ih p.2.tnr (tf || p.2.transformed) p.1 (log₀ ++ [p.2.tnr])
                  s' log st.2 hst
                  (by rw [hgo, oret, ← hw])
              refine ⟨p.2.tnr :: lg', by simpa using hlg, ?_, ?_, ?_, ?_⟩
              · rw [← henv]
                simpa [last_signal] using htnr
              · cases lg' with
                | nil => trivial
                | cons a as => exact ⟨hst, hnostop⟩
              · simpa using Nat.succ_le_succ hlen
              · intro hlt
                have : lg'.length < xs.length := by
                  simpa using Nat.lt_of_succ_lt_succ (by simpa using hlt)
                simpa [last_signal] using hshort this

/-- C6: the sibling aggregator's running signal is overwritten, not
merged.  (i) On an empty sequence the operation is never invoked and the
returned signal is `Continue`.  (ii) A running signal of `Jump` processes
the next element exactly as `Continue` does — the whole run is equal, so
a `Jump` from element i has no effect once element i+1 reports.  (iii)
With the operation instrumented to log each reported signal, a
successful run satisfies: the envelope's signal is the last logged report
(`Continue` when nothing was logged); every report except possibly the
last is not `Stop` (so the operation was invoked on the next element
whenever the previous one reported `Continue` or `Jump`); there is at
most one report per element; and fewer reports than elements implies the
last report was `Stop`. -/
theorem sibling_signal_overwrite :
    (∀ (ε σ α : Type) (f : σ → α → Option (Except ε (σ × Transformed α)))
       (s : σ),
       map_until_stop_and_collect f ([] : List α) s =
         oret (s, ⟨[], false, TreeNodeRecursion.Continue⟩))
    ∧ (∀ (ε σ α : Type) (f : σ → α → Option (Except ε (σ × Transformed α)))
       (x : α) (xs : List α) (tf : Bool) (s : σ),
       map_until_stop_and_collect_go f (x :: xs) TreeNodeRecursion.Jump tf s =
         map_until_stop_and_collect_go f (x :: xs) TreeNodeRecursion.Continue tf s)
    ∧ (∀ (ε σ α : Type) (f : σ → α → Option (Except ε (σ × Transformed α)))
       (xs : List α) (s : σ) (s' : σ) (log : List TreeNodeRecursion)
       (env : Transformed (List α)),
       map_until_stop_and_collect (log_signals f) xs (s, []) =
         oret ((s', log), env) →
       env.tnr = last_signal log TreeNodeRecursion.Continue
       ∧ no_stop_before_last log
       ∧ log.length ≤ xs.length
       ∧ (log.length < xs.length →
           last_signal log TreeNodeRecursion.Continue = TreeNodeRecursion.Stop)) := by
  refine ⟨fun ε σ α f s => rfl, fun ε σ α f x xs tf s => rfl, ?_⟩
  intro ε σ α f xs s s' log env h
  obtain ⟨lg, hlg, htnr, hnostop, hlen, hshort⟩ :=
    musc_go_log_spec f xs TreeNodeRecursion.Continue false s [] s' log env
      (by simp) h
  simp only [List.nil_append] at hlg
  subst hlg
  exact ⟨htnr, hnostop, hlen, hshort⟩

/-- Per-element operation for the C6 witness: keep the data, report
`Stop` on element 2, `Continue` otherwise. -/
def c6_cb : Unit → Nat → Option (Except Unit (Unit × Transformed Nat)) :=
  fun s n =>
    oret (s, ⟨n, false,
      if n = 2 then TreeNodeRecursion.Stop else TreeNodeRecursion.Continue⟩)

/-- C6 witness: the instrumented run on [1, 2, 3] logs `Continue, Stop`
and the logged-run characterization holds at it. -/
theorem sibling_signal_overwrite_witness :
    map_until_stop_and_collect (log_signals c6_cb) [1, 2, 3] ((), []) =
      oret ((((), [TreeNodeRecursion.Continue, TreeNodeRecursion.Stop]) :
              Unit × List TreeNodeRecursion),
        ⟨[1, 2, 3], false, TreeNodeRecursion.Stop⟩)
    ∧ ((⟨[1, 2, 3], false, TreeNodeRecursion.Stop⟩ : Transformed (List Nat)).tnr =
        last_signal [TreeNodeRecursion.Continue, TreeNodeRecursion.Stop]
          TreeNodeRecursion.Continue
      ∧ no_stop_before_last
          [TreeNodeRecursion.Continue, TreeNodeRecursion.Stop]
      ∧ ([TreeNodeRecursion.Continue, TreeNodeRecursion.Stop] :
          List TreeNodeRecursion).length ≤ ([1, 2, 3] : List Nat).length
      ∧ (([TreeNodeRecursion.Continue, TreeNodeRecursion.Stop] :
          List TreeNodeRecursion).length < ([1, 2, 3] : List Nat).length →
          last_signal [TreeNodeRecursion.Continue, TreeNodeRecursion.Stop]
            TreeNodeRecursion.Continue = TreeNodeRecursion.Stop)) :=
  ⟨rfl,
   sibling_signal_overwrite.2.2 Unit Unit Nat c6_cb [1, 2, 3] () ()
     [TreeNodeRecursion.Continue, TreeNodeRecursion.Stop]
     ⟨[1, 2, 3], false, TreeNodeRecursion.Stop⟩ rfl⟩
